import Mathlib

/-
Shallow embedding of the production-rule reasoning core of the
ecommerce-chatbot repository:
  src/src/knowledge_base.py  (KnowledgeBase: working-memory fact store,
                              rule loading via load_json)
  src/src/inference_engine.py (InferenceEngine: match phase, conflict
                              resolution, infer, explain_inference)
Python dicts are modelled as association lists with unique keys and
insertion order preserved; dict.update and d[k] = v follow CPython
semantics (overwrite in place, append new keys at the end).
-/

namespace EcommerceChatbot

/-- A fact / condition value: boolean, number or string (the JSON scalar
types the rule files and the perception layer use). -/
inductive Value where
  | bool (b : Bool)
  | num (n : Int)
  | str (s : String)
deriving DecidableEq, Repr

/-- Python truthiness of a scalar value (`bool(v)`). -/
def Value.truthy : Value → Bool
  | .bool b => b
  | .num n => n ≠ 0
  | .str s => s ≠ ""

/-- Python equality `==` between scalar values: numbers compare
numerically with booleans (True == 1, False == 0), strings compare with
strings, and cross-type comparisons are False. -/
def pyEq : Value → Value → Bool
  | .bool a, .bool b => a = b
  | .bool a, .num m => (if a then (1 : Int) else 0) = m
  | .num n, .bool b => n = (if b then (1 : Int) else 0)
  | .num n, .num m => n = m
  | .str s, .str t => s = t
  | _, _ => false

/-- A Python dict from fact keys to scalar values, as an insertion-ordered
association list. -/
abbrev Dict := List (String × Value)

/-- Dict lookup `d.get(k)` / `d[k]` (first matching key). -/
def dictGet : Dict → String → Option Value
  | [], _ => none
  | (k, v) :: rest, key => if k = key then some v else dictGet rest key

/-- Dict write `d[k] = v`: overwrite in place when the key exists,
append at the end otherwise (CPython insertion-order semantics). -/
def dictSet : Dict → String → Value → Dict
  | [], key, v => [(key, v)]
  | (k, w) :: rest, key, v =>
    if k = key then (key, v) :: rest else (k, w) :: dictSet rest key v

/-- Dict merge `d.update(new)`: write each entry of `new` in order. -/
def dictUpdate : Dict → Dict → Dict
  | store, [] => store
  | store, (k, v) :: rest => dictUpdate (dictSet store k v) rest

/-- A production rule record (rules.json entry: id, condition, action,
priority). The engine reads exactly these four fields. -/
structure Rule where
  id : String
  condition : Dict
  action : String
  priority : Int
deriving DecidableEq, Repr

/-- The KnowledgeBase state the inference engine touches: the loaded
production rules and the working-memory fact store (`self.facts`). -/
structure KnowledgeBase where
  rules : List Rule
  facts : Dict
deriving DecidableEq, Repr

/-- KnowledgeBase.get_rules. -/
def get_rules (kb : KnowledgeBase) : List Rule :=
  kb.rules

/-- KnowledgeBase.update_facts: `self.facts.update(new_facts)`. -/
def update_facts (kb : KnowledgeBase) (new_facts : Dict) : KnowledgeBase :=
  { kb with facts := dictUpdate kb.facts new_facts }

/-- KnowledgeBase.get_facts. -/
def get_facts (kb : KnowledgeBase) : Dict :=
  kb.facts

/-- KnowledgeBase.clear_facts: `self.facts = {}`. -/
def clear_facts (kb : KnowledgeBase) : KnowledgeBase :=
  { kb with facts := [] }

/-- InferenceEngine.evaluate_condition: iterate over the condition's
entries; an absent key fails; a boolean expected value tests truthiness
of the fact; anything else tests Python equality. Logical AND with early
exit, as in the source loop. -/
def evaluate_condition : Dict → Dict → Bool
  | [], _ => true
  | (key, value) :: rest, facts =>
    match dictGet facts key with
    | none => false
    | some fv =>
      match value with
      | .bool b =>
        if b && !fv.truthy then false
        else if !b && fv.truthy then false
        else evaluate_condition rest facts
      | _ =>
        if !pyEq fv value then false
        else evaluate_condition rest facts

/-- Satisfaction of one condition entry `(key, value)` against `facts`,
exactly the per-entry test inside InferenceEngine.evaluate_condition. -/
def entry_satisfied (facts : Dict) (key : String) (value : Value) : Bool :=
  match dictGet facts key with
  | none => false
  | some fv =>
    match value with
    | .bool b => fv.truthy = b
    | _ => pyEq fv value

/-- InferenceEngine.match_rules: collect, in rule-base order, every rule
whose condition evaluates true against `facts`. -/
def match_rules (kb : KnowledgeBase) (facts : Dict) : List Rule :=
  (get_rules kb).filter (fun rule => evaluate_condition rule.condition facts)

/-- Python `max(xs, key=f)` over a nonempty list: scan left to right,
replacing the current best only on a strictly greater key, so the first
element attaining the maximum wins. -/
def maxByPriority : Rule → List Rule → Rule
  | best, [] => best
  | best, r :: rest =>
    maxByPriority (if r.priority > best.priority then r else best) rest

/-- InferenceEngine.resolve_conflict: None on an empty matched list,
otherwise `max(matched_rules, key=lambda r: r.priority)`. -/
def resolve_conflict : List Rule → Option Rule
  | [] => none
  | r :: rest => some (maxByPriority r rest)

/-- InferenceEngine.infer: update the knowledge base facts, then match
against the incoming `facts` argument (the source passes `facts`, not the
merged store, to match_rules), then resolve the conflict. Returns the
mutated knowledge base and the selected rule. -/
def infer (kb : KnowledgeBase) (facts : Dict) :
    KnowledgeBase × Option Rule :=
  let kb' := update_facts kb facts
  let matched_rules := match_rules kb' facts
  let selected_rule := resolve_conflict matched_rules
  (kb', selected_rule)

/-- The explanation record returned by InferenceEngine.explain_inference. -/
structure Explanation where
  facts : Dict
  matched_rules : List String
  selected_rule : Option String
  reason : String
deriving DecidableEq, Repr

/-- InferenceEngine.explain_inference: match and resolve against the
`facts` argument (no store update), report matched ids, selected id and
a reason string. -/
def explain_inference (kb : KnowledgeBase) (facts : Dict) : Explanation :=
  let matched_rules := match_rules kb facts
  let selected_rule := resolve_conflict matched_rules
  { facts := facts
    matched_rules := matched_rules.map Rule.id
    selected_rule := selected_rule.map Rule.id
    reason :=
      if selected_rule.isSome then "Highest priority" else "No matching rules" }

/-- Run a sequence of infer calls, returning the selected rule id (or
none) at every step, threading the knowledge-base state. -/
def runInfer : KnowledgeBase → List Dict → List (Option String)
  | _, [] => []
  | kb, f :: rest =>
    let step := infer kb f
    step.2.map Rule.id :: runInfer step.1 rest

/-- A JSON value, as parsed by `json.load` in KnowledgeBase.load_json. -/
inductive Json where
  | null
  | bool (b : Bool)
  | num (n : Int)
  | str (s : String)
  | arr (items : List Json)
  | obj (entries : List (String × Json))

/-- Outcome of opening and parsing a data file, the three cases
KnowledgeBase.load_json distinguishes. -/
inductive ParseResult where
  | fileNotFound
  | decodeError
  | parsed (j : Json)

/-- KnowledgeBase.load_json: return the parsed JSON document; on a
missing file or a JSON decode error print a warning and return `{}`. -/
def load_json : ParseResult → Json
  | .fileNotFound => .obj []
  | .decodeError => .obj []
  | .parsed j => j

/-- Python subscript `d[key]` on a JSON value: defined (first match)
only when the value is an object containing the key; `none` models the
KeyError / TypeError raised otherwise. -/
def jsonGet : Json → String → Option Json
  | .obj entries, key => lookupEntry entries key
  | _, _ => none
where
  lookupEntry : List (String × Json) → String → Option Json
    | [], _ => none
    | (k, v) :: rest, key => if k = key then some v else lookupEntry rest key

/-- The rule-loading line of KnowledgeBase.__init__:
`self.rules = self.load_json('rules.json')['rules']`. The rules value is
returned as parsed, with no per-rule validation of any kind. -/
def load_rules (source : ParseResult) : Option Json :=
  jsonGet (load_json source) "rules"

/-- Example rule whose condition needs facts from two different turns. -/
def ruleOrderStatus : Rule :=
  { id := "R1"
    condition := [("intent", .str "order_status"), ("has_order_id", .bool true)]
    action := "check_order"
    priority := 10 }

/-- A session that starts with only the order-status rule loaded. -/
def kbStart : KnowledgeBase :=
  { rules := [ruleOrderStatus], facts := [] }

/-- Perception of the first conversational turn. -/
def factsTurn1 : Dict := [("intent", .str "order_status")]

/-- Perception of the second conversational turn. -/
def factsTurn2 : Dict := [("has_order_id", .bool true)]

/-- Two rules that tie on the maximum priority. -/
def ruleTieA : Rule :=
  { id := "T1", condition := [("intent", .str "greeting")],
    action := "greet", priority := 5 }

/-- Second rule of the priority tie, later in rule-base order. -/
def ruleTieB : Rule :=
  { id := "T2", condition := [("intent", .str "greeting")],
    action := "greet_again", priority := 5 }

/-- A rule definition missing the required `action` field. -/
def malformedRule : Json :=
  .obj [("id", .str "R1"),
        ("condition", .obj [("intent", .str "greeting")]),
        ("priority", .num 1)]

/-- A rules.json document containing only the malformed rule. -/
def malformedRuleSource : Json :=
  .obj [("rules", .arr [malformedRule])]

/-- First of two complete rule definitions sharing the id R1. -/
def duplicateRuleA : Json :=
  .obj [("id", .str "R1"),
        ("condition", .obj [("intent", .str "greeting")]),
        ("action", .str "greet"),
        ("priority", .num 1)]

/-- Second of two complete rule definitions sharing the id R1. -/
def duplicateRuleB : Json :=
  .obj [("id", .str "R1"),
        ("condition", .obj [("intent", .str "farewell")]),
        ("action", .str "say_goodbye"),
        ("priority", .num 2)]

/-- A rules.json document whose two rules share the id R1. -/
def duplicateIdSource : Json :=
  .obj [("rules", .arr [duplicateRuleA, duplicateRuleB])]

/-- Writing a key and reading it back yields the written value. -/
theorem dictGet_dictSet_self (d : Dict) (k : String) (v : Value) :
    dictGet (dictSet d k v) k = some v := by
  induction d with
  | nil => simp [dictSet, dictGet]
  | cons p rest ih =>
    obtain ⟨k', w⟩ := p
    by_cases h : k' = k
    · subst h
      simp [dictSet, dictGet]
    · simp [dictSet, dictGet, h, ih]

/-- Writing one key leaves every other key's value unchanged. -/
theorem dictGet_dictSet_ne (d : Dict) (k key : String) (v : Value)
    (h : k ≠ key) :
    dictGet (dictSet d k v) key = dictGet d key := by
  induction d with
  | nil => simp [dictSet, dictGet, h]
  | cons p rest ih =>
    obtain ⟨k', w⟩ := p
    by_cases hk : k' = k
    · subst hk
      simp [dictSet, dictGet, h]
    · by_cases hk2 : k' = key
      · subst hk2
        simp [dictSet, dictGet, hk]
      · simp [dictSet, dictGet, hk, hk2, ih]

/-- Merging a dict that does not bind a key leaves that key unchanged. -/
theorem dictGet_dictUpdate_none (d nf : Dict) (k : String)
    (h : dictGet nf k = none) :
    dictGet (dictUpdate d nf) k = dictGet d k := by
  induction nf generalizing d with
  | nil => rfl
  | cons p rest ih =>
    obtain ⟨k', v⟩ := p
    by_cases hk : k' = k
    · subst hk
      simp [dictGet] at h
    · simp only [dictGet, if_neg hk] at h
      simp only [dictUpdate]
      rw [ih (dictSet d k' v) h, dictGet_dictSet_ne d k' k v hk]

/-- A key not among a dict's keys has no value. -/
theorem dictGet_none_of_notMem (nf : Dict) (k : String)
    (h : k ∉ nf.map Prod.fst) :
    dictGet nf k = none := by
  induction nf with
  | nil => rfl
  | cons p rest ih =>
    obtain ⟨k', v⟩ := p
    simp only [List.map_cons, List.mem_cons] at h
    push_neg at h
    have hne : ¬k' = k := fun hh => h.1 hh.symm
    simp [dictGet, hne, ih h.2]

/-- Merging a dict with unique keys installs each of its bindings. -/
theorem dictGet_dictUpdate_some (d nf : Dict)
    (h : (nf.map Prod.fst).Nodup) (k : String) (v : Value)
    (hv : dictGet nf k = some v) :
    dictGet (dictUpdate d nf) k = some v := by
  induction nf generalizing d with
  | nil => simp [dictGet] at hv
  | cons p rest ih =>
    obtain ⟨k', w⟩ := p
    simp only [List.map_cons, List.nodup_cons] at h
    by_cases hk : k' = k
    · subst hk
      simp [dictGet] at hv
      subst hv
      simp only [dictUpdate]
      rw [dictGet_dictUpdate_none (dictSet d k' w) rest k'
          (dictGet_none_of_notMem rest k' h.1)]
      exact dictGet_dictSet_self d k' w
    · simp only [dictGet, if_neg hk] at hv
      simp only [dictUpdate]
      exact ih (dictSet d k' w) h.2 hv

/-- C6: update_facts replaces the store's value for exactly the keys
present in new_facts and leaves every other key unchanged; running infer
with a=1, then b=2, then a=3 from an empty store leaves the store equal
to a=3, b=2. -/
theorem C6_update_facts_merge (kb : KnowledgeBase) (new_facts : Dict)
    (h : (new_facts.map Prod.fst).Nodup) :
    (∀ key v, dictGet new_facts key = some v →
        dictGet (get_facts (update_facts kb new_facts)) key = some v) ∧
    (∀ key, dictGet new_facts key = none →
        dictGet (get_facts (update_facts kb new_facts)) key =
          dictGet (get_facts kb) key) ∧
    get_facts (infer (infer (infer ⟨[], []⟩ [("a", Value.num 1)]).1
        [("b", Value.num 2)]).1 [("a", Value.num 3)]).1 =
      [("a", Value.num 3), ("b", Value.num 2)] := by
  refine ⟨?_, ?_, by decide⟩
  · intro key v hv
    exact dictGet_dictUpdate_some kb.facts new_facts h key v hv
  · intro key hk
    exact dictGet_dictUpdate_none kb.facts new_facts key hk

/-- C6 witness: merging a=1 into a store holding x=0 makes the store
map a to 1. -/
theorem C6_update_facts_merge_witness :
    dictGet (get_facts (update_facts ⟨[], [("x", Value.num 0)]⟩
        [("a", Value.num 1)])) "a" = some (Value.num 1) :=
  (C6_update_facts_merge ⟨[], [("x", Value.num 0)]⟩ [("a", Value.num 1)]
      (by decide)).1 "a" (Value.num 1) rfl

/-- One step of evaluate_condition is the per-entry test followed by the
rest of the conjunction. -/
theorem evaluate_condition_cons (key : String) (value : Value)
    (rest facts : Dict) :
    evaluate_condition ((key, value) :: rest) facts =
      (entry_satisfied facts key value && evaluate_condition rest facts) := by
  cases hg : dictGet facts key with
  | none => simp [evaluate_condition, entry_satisfied, hg]
  | some fv =>
    cases value with
    | bool b =>
      cases b <;> cases ht : fv.truthy <;>
        simp [evaluate_condition, entry_satisfied, hg, ht]
    | num n =>
      cases hp : pyEq fv (.num n) <;>
        simp [evaluate_condition, entry_satisfied, hg, hp]
    | str s =>
      cases hp : pyEq fv (.str s) <;>
        simp [evaluate_condition, entry_satisfied, hg, hp]

/-- evaluate_condition is the conjunction of the per-entry tests. -/
theorem evaluate_condition_eq_all (condition facts : Dict) :
    evaluate_condition condition facts =
      condition.all (fun e => entry_satisfied facts e.1 e.2) := by
  induction condition with
  | nil => rfl
  | cons p rest ih =>
    obtain ⟨k, v⟩ := p
    rw [evaluate_condition_cons, ih, List.all_cons]

/-- C4: a rule's condition is satisfied iff every condition entry is
satisfied (logical AND), and a condition entry whose key is absent from
facts makes the whole condition evaluate false, whatever the expected
value is. -/
theorem C4_conjunctive_matching (condition facts : Dict) :
    (evaluate_condition condition facts = true ↔
      ∀ e ∈ condition, entry_satisfied facts e.1 e.2 = true) ∧
    (∀ key value, (key, value) ∈ condition → dictGet facts key = none →
      evaluate_condition condition facts = false) := by
  constructor
  · rw [evaluate_condition_eq_all]
    exact List.all_eq_true
  · intro key value hmem hnone
    have hfail : entry_satisfied facts key value = false := by
      simp [entry_satisfied, hnone]
    rw [evaluate_condition_eq_all]
    cases hall : condition.all (fun e => entry_satisfied facts e.1 e.2) with
    | false => rfl
    | true =>
      have := List.all_eq_true.mp hall (key, value) hmem
      rw [hfail] at this
      exact absurd this (by simp)

/-- C4 witness: the condition category=electronics fails against empty
facts because the key is absent. -/
theorem C4_conjunctive_matching_witness :
    evaluate_condition [("category", Value.str "electronics")] [] = false :=
  (C4_conjunctive_matching [("category", Value.str "electronics")] []).2
    "category" (Value.str "electronics") (by decide) rfl

/-- C7: a boolean condition entry with the key present is satisfied iff
the truthiness of the stored fact value equals the expected boolean. -/
theorem C7_bool_condition_truthiness (facts : Dict) (key : String)
    (b : Bool) (fv : Value) (h : dictGet facts key = some fv) :
    entry_satisfied facts key (Value.bool b) = true ↔ fv.truthy = b := by
  simp [entry_satisfied, h]

/-- C7 witness: has_order_id stored as the number 5 satisfies the
boolean condition expecting true, by truthiness rather than equality. -/
theorem C7_bool_condition_truthiness_witness :
    entry_satisfied [("has_order_id", Value.num 5)] "has_order_id"
      (Value.bool true) = true :=
  (C7_bool_condition_truthiness [("has_order_id", Value.num 5)]
      "has_order_id" true (Value.num 5) rfl).mpr (by decide)

/-- C10: the match phase returns an order-preserving sublist of the
rule base: every matched rule occurs in the rule base and relative order
is rule-base iteration order. -/
theorem C10_match_rules_sublist (kb : KnowledgeBase) (facts : Dict) :
    List.Sublist (match_rules kb facts) (get_rules kb) :=
  List.filter_sublist (get_rules kb)

/-- maxByPriority returns an element of best :: l whose priority bounds
the whole list and strictly exceeds every earlier element's priority. -/
theorem maxByPriority_spec (best : Rule) (l : List Rule) :
    ∃ pre suf, best :: l = pre ++ maxByPriority best l :: suf ∧
      (∀ s ∈ best :: l, s.priority ≤ (maxByPriority best l).priority) ∧
      (∀ s ∈ pre, s.priority < (maxByPriority best l).priority) := by
  induction l generalizing best with
  | nil =>
    refine ⟨[], [], by simp [maxByPriority], ?_, by simp⟩
    intro s hs
    rw [List.mem_singleton] at hs
    subst hs
    simp [maxByPriority]
  | cons r rest ih =>
    by_cases hgt : r.priority > best.priority
    · have hred : maxByPriority best (r :: rest) = maxByPriority r rest := by
        simp [maxByPriority, hgt]
      obtain ⟨pre, suf, hdec, hle, hlt⟩ := ih r
      have hrm : r.priority ≤ (maxByPriority r rest).priority :=
        hle r (List.mem_cons_self r rest)
      refine ⟨best :: pre, suf, ?_, ?_, ?_⟩
      · rw [hred, List.cons_append, ← hdec]
      · intro s hs
        rw [hred]
        rcases List.mem_cons.mp hs with h1 | h2
        · subst h1
          exact le_of_lt (lt_of_lt_of_le hgt hrm)
        · exact hle s h2
      · intro s hs
        rw [hred]
        rcases List.mem_cons.mp hs with h1 | h2
        · subst h1
          exact lt_of_lt_of_le hgt hrm
        · exact hlt s h2
    · have hle' : r.priority ≤ best.priority := le_of_not_lt hgt
      have hred : maxByPriority best (r :: rest) = maxByPriority best rest := by
        simp [maxByPriority, hgt]
      obtain ⟨pre, suf, hdec, hle, hlt⟩ := ih best
      cases pre with
      | nil =>
        simp only [List.nil_append, List.cons.injEq] at hdec
        obtain ⟨hm, hsuf⟩ := hdec
        refine ⟨[], r :: rest, ?_, ?_, by simp⟩
        · rw [hred, ← hm]
          rfl
        · intro s hs
          rw [hred, ← hm]
          rcases List.mem_cons.mp hs with h1 | h2
          · subst h1
            exact le_refl _
          rcases List.mem_cons.mp h2 with h3 | h4
          · subst h3
            exact hle'
          · have := hle s (List.mem_cons_of_mem best h4)
            rw [← hm] at this
            exact this
      | cons p pre' =>
        rw [List.cons_append] at hdec
        injection hdec with hp hrest
        subst hp
        have hbestlt : best.priority < (maxByPriority best rest).priority :=
          hlt best (List.mem_cons_self best pre')
        refine ⟨best :: r :: pre', suf, ?_, ?_, ?_⟩
        · rw [hred, List.cons_append, List.cons_append, ← hrest]
        · intro s hs
          rw [hred]
          rcases List.mem_cons.mp hs with h1 | h2
          · subst h1
            exact le_of_lt hbestlt
          rcases List.mem_cons.mp h2 with h3 | h4
          · subst h3
            exact le_trans hle' (le_of_lt hbestlt)
          · exact hle s (List.mem_cons_of_mem best h4)
        · intro s hs
          rw [hred]
          rcases List.mem_cons.mp hs with h1 | h2
          · subst h1
            exact hbestlt
          rcases List.mem_cons.mp h2 with h3 | h4
          · subst h3
            exact lt_of_le_of_lt hle' hbestlt
          · exact hlt s (List.mem_cons_of_mem best h4)

/-- find? over a list whose prefix fails the predicate and whose next
element satisfies it returns that element. -/
theorem find?_of_prefix_fails {α : Type} (p : α → Bool) (pre suf : List α)
    (r : α) (hpre : ∀ s ∈ pre, p s = false) (hr : p r = true) :
    (pre ++ r :: suf).find? p = some r := by
  induction pre with
  | nil => simp [List.find?_cons, hr]
  | cons a t ih =>
    have ha := hpre a (List.mem_cons_self a t)
    simp only [List.cons_append, List.find?_cons, ha]
    exact ih (fun s hs => hpre s (List.mem_cons_of_mem a hs))

/-- resolve_conflict returns no rule exactly on the empty matched list. -/
theorem resolve_conflict_eq_none (matched_rules : List Rule) :
    resolve_conflict matched_rules = none ↔ matched_rules = [] := by
  cases matched_rules <;> simp [resolve_conflict]

/-- C3: on a non-empty matched list, resolve_conflict selects the first
rule in list order whose priority is greater than or equal to every
matched rule's priority — the highest-priority rule, first-in-order on
ties — and it does select a rule. -/
theorem C3_resolve_priority_tiebreak (matched_rules : List Rule)
    (h : matched_rules ≠ []) :
    resolve_conflict matched_rules =
      matched_rules.find?
        (fun r => matched_rules.all (fun s => s.priority ≤ r.priority)) ∧
    (resolve_conflict matched_rules).isSome = true := by
  cases matched_rules with
  | nil => exact absurd rfl h
  | cons a l =>
    obtain ⟨pre, suf, hdec, hle, hlt⟩ := maxByPriority_spec a l
    have hres : resolve_conflict (a :: l) = some (maxByPriority a l) := rfl
    refine ⟨?_, by rw [hres]; rfl⟩
    rw [hres, hdec]
    rw [hdec] at hle
    refine (find?_of_prefix_fails _ pre suf (maxByPriority a l) ?_ ?_).symm
    · intro s hs
      have hsr : s.priority < (maxByPriority a l).priority := hlt s hs
      have hrmem : maxByPriority a l ∈ pre ++ maxByPriority a l :: suf :=
        List.mem_append_right pre (List.mem_cons_self _ suf)
      cases hall : (pre ++ maxByPriority a l :: suf).all
          (fun t => t.priority ≤ s.priority) with
      | false => rfl
      | true =>
        have := List.all_eq_true.mp hall (maxByPriority a l) hrmem
        rw [decide_eq_true_eq] at this
        exact absurd this (not_le.mpr hsr)
    · rw [List.all_eq_true]
      intro s hs
      rw [decide_eq_true_eq]
      exact hle s hs

/-- C3 witness: with two matching rules tying on priority 5, the
selection is the find?-first maximal rule and is some rule. -/
theorem C3_resolve_priority_tiebreak_witness :
    (resolve_conflict [ruleTieA, ruleTieB] =
      [ruleTieA, ruleTieB].find?
        (fun r => [ruleTieA, ruleTieB].all
          (fun s => s.priority ≤ r.priority))) ∧
    (resolve_conflict [ruleTieA, ruleTieB]).isSome = true :=
  C3_resolve_priority_tiebreak [ruleTieA, ruleTieB] (by simp)

/-- C8: resolve_conflict returns none exactly when the matched list is
empty, and infer returns none as a normal result whenever the facts
match zero rules. -/
theorem C8_no_match_none :
    (∀ matched_rules : List Rule,
        resolve_conflict matched_rules = none ↔ matched_rules = []) ∧
    (∀ (kb : KnowledgeBase) (facts : Dict),
        match_rules kb facts = [] → (infer kb facts).2 = none) := by
  constructor
  · exact resolve_conflict_eq_none
  · intro kb facts h
    show resolve_conflict (match_rules (update_facts kb facts) facts) = none
    have hsame : match_rules (update_facts kb facts) facts =
        match_rules kb facts := rfl
    rw [hsame, h]
    rfl

/-- C8 witness: the empty matched list resolves to none, and infer on a
knowledge base with no rules returns none. -/
theorem C8_no_match_none_witness :
    resolve_conflict [] = none ∧ (infer ⟨[], []⟩ []).2 = none :=
  ⟨(C8_no_match_none.1 []).mpr rfl, C8_no_match_none.2 ⟨[], []⟩ [] rfl⟩

/-- C1: divergence between the code and the documented merged-store
matching. After a first turn stores intent=order_status, a second infer
call carrying only has_order_id=true returns none, because the source
passes the incoming facts argument — not the merged store — to
match_rules; yet the merged store does satisfy the rule's condition, and
matching against the merged store contents would select the rule. -/
theorem C1_infer_matches_incoming_only :
    (infer (infer kbStart factsTurn1).1 factsTurn2).2 = none ∧
    get_facts (infer (infer kbStart factsTurn1).1 factsTurn2).1 =
      [("intent", Value.str "order_status"),
       ("has_order_id", Value.bool true)] ∧
    evaluate_condition ruleOrderStatus.condition
      (get_facts (infer (infer kbStart factsTurn1).1 factsTurn2).1) = true ∧
    resolve_conflict
        (match_rules (infer (infer kbStart factsTurn1).1 factsTurn2).1
          (get_facts (infer (infer kbStart factsTurn1).1 factsTurn2).1)) =
      some ruleOrderStatus := by
  decide

/-- C2 counterexample: a rule source with a rule missing the action
field loads successfully (no MalformedRuleError exists), and a source
with two rules sharing id R1 also loads successfully with both rules
kept (no DuplicateRuleIdError exists). -/
theorem C2_load_counterexample :
    load_rules (.parsed malformedRuleSource) = some (.arr [malformedRule]) ∧
    jsonGet malformedRule "action" = none ∧
    load_rules (.parsed duplicateIdSource) =
      some (.arr [duplicateRuleA, duplicateRuleB]) ∧
    jsonGet duplicateRuleA "id" = some (.str "R1") ∧
    jsonGet duplicateRuleB "id" = some (.str "R1") :=
  ⟨rfl, rfl, rfl, rfl, rfl⟩

/-- C2 amended: rule loading performs no per-rule validation — whatever
value the parsed document maps the rules key to is returned unchanged —
and the only load failures come from a missing file or invalid JSON,
which produce an empty object whose missing rules key then yields no
rule base. -/
theorem C2_load_no_validation :
    (∀ (rules_value : Json) (rest : List (String × Json)),
        load_rules (.parsed (.obj (("rules", rules_value) :: rest))) =
          some rules_value) ∧
    load_rules .fileNotFound = none ∧
    load_rules .decodeError = none := by
  refine ⟨fun rules_value rest => ?_, rfl, rfl⟩
  simp [load_rules, load_json, jsonGet, jsonGet.lookupEntry]

/-- C5 counterexample: with no matching rules, explain_inference
reports an empty matched list but its reason string is capitalized, so
it differs from the lowercase string the claim states. -/
theorem C5_reason_counterexample :
    (explain_inference ⟨[], []⟩ []).matched_rules = [] ∧
    (explain_inference ⟨[], []⟩ []).reason ≠ "no matching rules" := by
  decide

/-- C5 amended: explain_inference returns the matched rule ids in match
order, the selected rule id (or none), and the reason string, which is
the capitalized "No matching rules" when the matched list is empty and
the capitalized "Highest priority" when a rule is selected. -/
theorem C5_explain_contents (kb : KnowledgeBase) (facts : Dict) :
    (explain_inference kb facts).matched_rules =
      (match_rules kb facts).map Rule.id ∧
    (explain_inference kb facts).selected_rule =
      (resolve_conflict (match_rules kb facts)).map Rule.id ∧
    (match_rules kb facts = [] →
      (explain_inference kb facts).reason = "No matching rules") ∧
    (match_rules kb facts ≠ [] →
      (explain_inference kb facts).reason = "Highest priority") := by
  refine ⟨rfl, rfl, ?_, ?_⟩
  · intro h
    simp [explain_inference, h, resolve_conflict]
  · intro h
    have hsome : (resolve_conflict (match_rules kb facts)).isSome = true := by
      cases hm : match_rules kb facts with
      | nil => exact absurd hm h
      | cons a l => rfl
    simp [explain_inference, hsome]

/-- C5 witness: on an empty rule base the explanation's reason is the
capitalized no-match string. -/
theorem C5_explain_contents_witness :
    (explain_inference ⟨[], []⟩ []).reason = "No matching rules" :=
  (C5_explain_contents ⟨[], []⟩ []).2.2.1 rfl

/-- C9: infer is a deterministic function of the rule base, the initial
store and the facts history: two runs of the same sequence of infer
calls from equal knowledge-base states select equal rule ids at every
step. -/
theorem C9_infer_deterministic (kb1 kb2 : KnowledgeBase)
    (fs1 fs2 : List Dict) (hkb : kb1 = kb2) (hfs : fs1 = fs2) :
    runInfer kb1 fs1 = runInfer kb2 fs2 := by
  rw [hkb, hfs]

/-- C9 witness: the two-turn session replayed from the same start gives
identical per-step selections. -/
theorem C9_infer_deterministic_witness :
    runInfer kbStart [factsTurn1, factsTurn2] =
      runInfer kbStart [factsTurn1, factsTurn2] :=
  C9_infer_deterministic kbStart kbStart [factsTurn1, factsTurn2]
    [factsTurn1, factsTurn2] rfl rfl

end EcommerceChatbot
